import Mathlib

/-!
Verification development for the RLzoo baselines repository.

The definitions below are a shallow embedding of the Python sources
`baselines/algorithms/pg/pg.py`, `baselines/algorithms/td3/default.py` and
`baselines/algorithms/dqn/default.py`.  Machine floating-point values are
modelled by exact fields (`ℝ` where square roots occur, `ℚ` where the
arithmetic is rational); stateful methods are modelled as explicit state
passing, and the effectful training loop `PG.learn` is modelled as a pure
function that also returns the trace of its environment / checkpoint /
in-memory effects.
-/

section ListStats

variable {K : Type} [LinearOrderedField K]

/-- Arithmetic mean of a list, as computed by `np.mean`
(`sum / length`; the empty list gives `0 / 0 = 0`). -/
def listMean (l : List K) : K := l.sum / (l.length : K)

/-- Population variance of a list (`np.var` with the default `ddof = 0`):
the mean of the squared deviations from the mean. -/
def listVar (l : List K) : K := listMean (l.map (fun x => (x - listMean l) ^ 2))

/-- One iteration of the reversed loop in `PG._discount_and_norm_rewards`:
`running_add = running_add * gamma + reward_list[t]`, and the freshly
computed value is written in front of the output built so far.  The first
component is the current `running_add`, the second the output list. -/
def discountStep (gamma : K) (x : K) (acc : K × List K) : K × List K :=
  (acc.1 * gamma + x, (acc.1 * gamma + x) :: acc.2)

/-- The discounting loop of `PG._discount_and_norm_rewards`
(`pg.py`, lines 108-112): iterate over the indices in reversed order with
accumulator `running_add` initialised to `0`, storing each intermediate
value at the corresponding index of the output. -/
def discountRewards (gamma : K) (reward_list : List K) : List K :=
  (reward_list.foldr (discountStep gamma) (0, [])).2

lemma discountRewards_fst (gamma : K) (l : List K) :
    (l.foldr (discountStep gamma) (0, [])).1 =
      (l.foldr (discountStep gamma) (0, [])).2.headD 0 := by
  cases l with
  | nil => rfl
  | cons x xs => rfl

@[simp] lemma discountRewards_nil (gamma : K) :
    discountRewards gamma ([] : List K) = [] := rfl

lemma discountRewards_cons (gamma x : K) (xs : List K) :
    discountRewards gamma (x :: xs) =
      ((discountRewards gamma xs).headD 0 * gamma + x) :: discountRewards gamma xs := by
  unfold discountRewards
  rw [List.foldr_cons]
  show (discountStep gamma x (xs.foldr (discountStep gamma) (0, []))).2 = _
  rw [discountStep, discountRewards_fst]

@[simp] lemma discountRewards_length (gamma : K) (l : List K) :
    (discountRewards gamma l).length = l.length := by
  induction l with
  | nil => rfl
  | cons x xs ih => rw [discountRewards_cons, List.length_cons, ih, List.length_cons]

lemma headD_eq_getD_zero (l : List K) : l.headD 0 = l.getD 0 0 := by
  cases l <;> rfl

/-- The loop of `PG._discount_and_norm_rewards` realises the backwards
recurrence `d[t] = r[t] + gamma * d[t+1]`, with `d` read as `0` past the
end of the list. -/
lemma discountRewards_getD (gamma : K) (r : List K) :
    ∀ t, t < r.length →
      (discountRewards gamma r).getD t 0 =
        r.getD t 0 + gamma * (discountRewards gamma r).getD (t + 1) 0 := by
  induction r with
  | nil => intro t ht; simp at ht
  | cons x xs ih =>
    intro t ht
    rw [discountRewards_cons]
    cases t with
    | zero =>
      simp only [List.getD_cons_zero, List.getD_cons_succ]
      rw [headD_eq_getD_zero]
      ring
    | succ s =>
      simp only [List.getD_cons_succ]
      exact ih s (Nat.lt_of_succ_lt_succ ht)

lemma listSum_map_sub (l : List K) (c : K) :
    (l.map (fun x => x - c)).sum = l.sum - (l.length : K) * c := by
  induction l with
  | nil => simp
  | cons a t ih =>
    simp only [List.map_cons, List.sum_cons, ih, List.length_cons]
    push_cast
    ring

lemma listSum_const (l : List K) (c : K) (h : ∀ y ∈ l, y = c) :
    l.sum = (l.length : K) * c := by
  induction l with
  | nil => simp
  | cons a t ih =>
    have ha : a = c := h a (by simp)
    have ht : ∀ y ∈ t, y = c := fun y hy => h y (by simp [hy])
    simp only [List.sum_cons, ha, ih ht, List.length_cons]
    push_cast
    ring

lemma listSum_map_add_sub (l : List K) (v c : K) :
    (l.map (fun q => v + q - c)).sum =
      (l.length : K) * v + l.sum - (l.length : K) * c := by
  induction l with
  | nil => simp
  | cons a t ih =>
    simp only [List.map_cons, List.sum_cons, List.length_cons, ih]
    push_cast
    ring

lemma listMean_const (l : List K) (c : K) (h : ∀ y ∈ l, y = c) (hl : l ≠ []) :
    listMean l = c := by
  have hn : (l.length : K) ≠ 0 :=
    Nat.cast_ne_zero.mpr (List.length_pos.mpr hl).ne'
  unfold listMean
  rw [listSum_const l c h, mul_comm, mul_div_assoc, div_self hn, mul_one]

lemma listMean_map_sub_mean (l : List K) (hl : l ≠ []) :
    listMean (l.map (fun x => x - listMean l)) = 0 := by
  have hn : (l.length : K) ≠ 0 :=
    Nat.cast_ne_zero.mpr (List.length_pos.mpr hl).ne'
  unfold listMean
  rw [listSum_map_sub, List.length_map]
  field_simp

lemma listVar_map_sub_mean (l : List K) (hl : l ≠ []) :
    listVar (l.map (fun x => x - listMean l)) = listVar l := by
  unfold listVar
  rw [listMean_map_sub_mean l hl, List.map_map]
  simp [Function.comp_def]

lemma listVar_const (l : List K) (c : K) (h : ∀ y ∈ l, y = c) (hl : l ≠ []) :
    listVar l = 0 := by
  unfold listVar
  rw [listMean_const l c h hl]
  have hz : ∀ y ∈ l.map (fun x => (x - c) ^ 2), y = 0 := by
    intro y hy
    rcases List.mem_map.mp hy with ⟨x, hx, rfl⟩
    rw [h x hx]
    ring
  rw [listMean_const _ 0 hz (by simpa using hl)]

end ListStats

section DiscountNorm

/-- Standard deviation of a list (`np.std` with the default `ddof = 0`):
the square root of the population variance. -/
noncomputable def listStd (l : List ℝ) : ℝ := Real.sqrt (listVar l)

/-- `PG._discount_and_norm_rewards` (`pg.py`, lines 102-117): run the
discounting loop, subtract the mean of the discounted rewards in place,
then divide the (already centered) array in place by its standard
deviation.  The two in-place numpy statements are modelled by the two
`map`s; note that the standard deviation is taken of the centered array,
exactly as in the source. -/
noncomputable def discount_and_norm_rewards (reward_list : List ℝ) (gamma : ℝ) : List ℝ :=
  ((discountRewards gamma reward_list).map
      (fun x => x - listMean (discountRewards gamma reward_list))).map
    (fun x => x / listStd ((discountRewards gamma reward_list).map
      (fun x => x - listMean (discountRewards gamma reward_list))))

open Classical in
/-- Guarded variant of `PG._discount_and_norm_rewards` making the
division by the standard deviation explicit: when the divisor is zero the
numpy division produces no well-defined vector of finite numbers
(`0/0 = nan`), which is modelled by the `none` branch.  Otherwise it
returns exactly what `discount_and_norm_rewards` returns. -/
noncomputable def discount_and_norm_rewardsChecked (reward_list : List ℝ) (gamma : ℝ) :
    Option (List ℝ) :=
  if listStd ((discountRewards gamma reward_list).map
      (fun x => x - listMean (discountRewards gamma reward_list))) = 0 then
    none
  else
    some (((discountRewards gamma reward_list).map
        (fun x => x - listMean (discountRewards gamma reward_list))).map
      (fun x => x / listStd ((discountRewards gamma reward_list).map
        (fun x => x - listMean (discountRewards gamma reward_list)))))

lemma discountRewards_ne_nil {gamma : ℝ} {r : List ℝ} (hr : r ≠ []) :
    discountRewards gamma r ≠ [] := by
  intro h
  have hlen := discountRewards_length gamma r
  rw [h] at hlen
  exact hr (List.length_eq_zero.mp hlen.symm)

lemma listStd_map_sub_mean (l : List ℝ) (hl : l ≠ []) :
    listStd (l.map (fun x => x - listMean l)) = listStd l := by
  unfold listStd
  rw [listVar_map_sub_mean l hl]

end DiscountNorm

/-- Claim C1: for every non-empty reward list `r` and decay factor `gamma`,
`PG._discount_and_norm_rewards` computes the reverse cumulative sum with
decay `d[t] = r[t] + gamma * d[t+1]` (with `d[len r] = 0`, realised by the
default value of `getD`), and returns `(d - mean d) / std d`, the
discounted returns normalised by subtracting their mean and dividing by
their standard deviation. -/
theorem pg_discount_and_norm_correct (r : List ℝ) (gamma : ℝ) (hr : r ≠ []) :
    (discountRewards gamma r).length = r.length ∧
    (∀ t, t < r.length →
      (discountRewards gamma r).getD t 0 =
        r.getD t 0 + gamma * (discountRewards gamma r).getD (t + 1) 0) ∧
    discount_and_norm_rewards r gamma =
      (discountRewards gamma r).map
        (fun x => (x - listMean (discountRewards gamma r)) /
          listStd (discountRewards gamma r)) := by
  refine ⟨discountRewards_length gamma r, discountRewards_getD gamma r, ?_⟩
  unfold discount_and_norm_rewards
  rw [listStd_map_sub_mean _ (discountRewards_ne_nil hr), List.map_map]
  rfl

/-- Witness for C1 at the concrete input `r = [1, 2]`, `gamma = 1/2`. -/
theorem pg_discount_and_norm_correct_witness :
    ([(1 : ℝ), 2] ≠ [] ∧
      ((discountRewards (1/2 : ℝ) [1, 2]).length = 2 ∧
        (∀ t, t < ([(1 : ℝ), 2] : List ℝ).length →
          (discountRewards (1/2 : ℝ) [1, 2]).getD t 0 =
            ([(1 : ℝ), 2] : List ℝ).getD t 0 +
              (1/2 : ℝ) * (discountRewards (1/2 : ℝ) [1, 2]).getD (t + 1) 0) ∧
        discount_and_norm_rewards [1, 2] (1/2) =
          (discountRewards (1/2 : ℝ) [1, 2]).map
            (fun x => (x - listMean (discountRewards (1/2 : ℝ) [1, 2])) /
              listStd (discountRewards (1/2 : ℝ) [1, 2])))) :=
  ⟨List.cons_ne_nil _ _, pg_discount_and_norm_correct [1, 2] (1/2) (List.cons_ne_nil _ _)⟩

/-- Claim C6: `PG._discount_and_norm_rewards` divides by the standard
deviation of the discounted returns without guarding against zero: for
every reward list of length one, and for every non-empty reward list whose
discounted returns are all equal, the divisor is zero and the guarded
embedding takes its error branch; in particular the error branch is
reachable, e.g. at `r = [1]`, `gamma = 0`. -/
theorem pg_discount_norm_div_by_zero :
    (∀ (r : List ℝ) (gamma c : ℝ), r ≠ [] →
        (∀ y ∈ discountRewards gamma r, y = c) →
        discount_and_norm_rewardsChecked r gamma = none) ∧
    (∀ x gamma : ℝ, discount_and_norm_rewardsChecked [x] gamma = none) ∧
    discount_and_norm_rewardsChecked [(1 : ℝ)] 0 = none := by
  have main : ∀ (r : List ℝ) (gamma c : ℝ), r ≠ [] →
      (∀ y ∈ discountRewards gamma r, y = c) →
      discount_and_norm_rewardsChecked r gamma = none := by
    intro r gamma c hr hc
    have hd : discountRewards gamma r ≠ [] := discountRewards_ne_nil hr
    have hmean : listMean (discountRewards gamma r) = c := listMean_const _ c hc hd
    have hzero : ∀ y ∈ (discountRewards gamma r).map
        (fun x => x - listMean (discountRewards gamma r)), y = 0 := by
      intro y hy
      rcases List.mem_map.mp hy with ⟨x, hx, rfl⟩
      rw [hc x hx, hmean, sub_self]
    have hvar : listVar ((discountRewards gamma r).map
        (fun x => x - listMean (discountRewards gamma r))) = 0 :=
      listVar_const _ 0 hzero (by simpa using hd)
    have hstd : listStd ((discountRewards gamma r).map
        (fun x => x - listMean (discountRewards gamma r))) = 0 := by
      unfold listStd
      rw [hvar, Real.sqrt_zero]
    unfold discount_and_norm_rewardsChecked
    rw [if_pos hstd]
  have single : ∀ x gamma : ℝ, discount_and_norm_rewardsChecked [x] gamma = none := by
    intro x gamma
    refine main [x] gamma (0 * gamma + x) (List.cons_ne_nil _ _) ?_
    intro y hy
    rw [discountRewards_cons] at hy
    simpa using hy
  exact ⟨main, single, single 1 0⟩

/-- Witness for C6 at the concrete input `r = [1, 1]`, `gamma = 0`,
whose discounted returns are all equal to `1`. -/
theorem pg_discount_norm_div_by_zero_witness :
    (([(1 : ℝ), 1] : List ℝ) ≠ [] ∧ (∀ y ∈ discountRewards (0 : ℝ) [1, 1], y = 1)) ∧
      discount_and_norm_rewardsChecked [(1 : ℝ), 1] 0 = none := by
  have hmem : ∀ y ∈ discountRewards (0 : ℝ) [1, 1], y = 1 := by
    intro y hy
    rw [discountRewards_cons, discountRewards_cons, discountRewards_nil] at hy
    simp only [List.headD_nil, List.headD_cons, List.mem_cons, List.not_mem_nil,
      or_false] at hy
    rcases hy with h | h <;> rw [h] <;> norm_num
  exact ⟨⟨List.cons_ne_nil _ _, hmem⟩,
    pg_discount_norm_div_by_zero.1 [1, 1] 0 1 (List.cons_ne_nil _ _) hmem⟩


section PGModel

/-- Trace events of `PG.learn` and the methods it calls.  Each constructor
records one call made by `pg.py`: environment interface calls
(`reset`, `render`, `step` with the returned done flag, `seedEnv`),
checkpoint file I/O (`save` via `save_model`, `load` via `load_model`),
and in-process operations (policy forward passes `choose` /
`chooseGreedy`, the in-memory buffer append `store`, the gradient
`update`, the numpy / tensorflow RNG seeding, and the final
`plot_save_log` call). -/
inductive Ev where
  | reset
  | render
  | choose
  | chooseGreedy
  | step (d : Bool)
  | store
  | update
  | save
  | load
  | seedNp
  | seedTf
  | seedEnv
  | plotLog
  deriving DecidableEq, Repr

variable {E O A Θ : Type}

/-- Result of one `env.step(action)` call: the successor environment
state together with the returned `(observation, reward, done)` triple
(the `info` component is unused by `pg.py` and omitted). -/
structure StepOut (E O : Type) where
  env : E
  obs : O
  reward : ℝ
  done : Bool

/-- The mutable state of a `PG` object (`pg.py`, `__init__`): the
in-memory transition buffer and the policy network weights.  The
optimizer is folded into the abstract gradient step of `PGSem`. -/
structure PGState (O A Θ : Type) where
  buffer : List (O × A × ℝ)
  θ : Θ

/-- Semantic parameters of the embedding: the environment transition
functions and the framework-provided pieces (`pg.py` delegates these to
gym / tensorflow / tensorlayer).  `gradStep` is the abstract effect on the
weights of one optimizer application (`update`, lines 91-97); `loadCkpt`
is the abstract effect of `load_model` on the weights. -/
structure PGSem (E O A Θ : Type) where
  resetF : E → E × O
  stepF : E → A → StepOut E O
  seedF : E → ℤ → E
  choose : Θ → O → A
  chooseGreedy : Θ → O → A
  gradStep : Θ → List (O × A × ℝ) → List ℝ → Θ
  loadCkpt : Θ → Θ

/-- `PG.store_transition` (`pg.py`, line 79): append one
`(state, action, reward)` tuple to the in-memory buffer. -/
def PG.store_transition (pg : PGState O A Θ) (s : O) (a : A) (r : ℝ) : PGState O A Θ :=
  ⟨pg.buffer ++ [(s, a, r)], pg.θ⟩

/-- `PG.update` (`pg.py`, lines 81-100): unzip the buffer (which raises
on an empty buffer, modelled by `none`), discount and normalise the
episode rewards, apply one gradient step to the weights, clear the
buffer, and return the normalised discounted rewards. -/
noncomputable def PG.update (sem : PGSem E O A Θ) (gamma : ℝ) (pg : PGState O A Θ) :
    Option (PGState O A Θ × List ℝ) :=
  if pg.buffer.isEmpty then none
  else
    some (⟨[], sem.gradStep pg.θ pg.buffer
        (discount_and_norm_rewards (pg.buffer.map (fun t => t.2.2)) gamma)⟩,
      discount_and_norm_rewards (pg.buffer.map (fun t => t.2.2)) gamma)

/-- The events of one iteration of the training episode loop
(`pg.py`, lines 164-176): an optional `env.render()`, the policy forward
pass, one `env.step` (recording the returned done flag), and one
`store_transition`. -/
def iterEvs (render : Bool) (d : Bool) : List Ev :=
  (if render then [Ev.render] else []) ++ [Ev.choose, Ev.step d, Ev.store]

/-- Result of the inner step loop of a training episode. -/
structure StepsOut (E O A Θ : Type) where
  envS : E
  pg : PGState O A Θ
  epSum : ℝ
  trace : List Ev

/-- The inner step loop of a training episode (`pg.py`, lines 164-176):
up to `max_steps` iterations of render / choose / step / store,
accumulating `ep_rs_sum` and stopping early when `done` is reported. -/
def runSteps (sem : PGSem E O A Θ) (render : Bool) :
    ℕ → E → O → PGState O A Θ → ℝ → StepsOut E O A Θ
  | 0, es, _, pg, acc => ⟨es, pg, acc, []⟩
  | n + 1, es, obs, pg, acc =>
      let a := sem.choose pg.θ obs
      let so := sem.stepF es a
      let pg' := PG.store_transition pg obs a so.reward
      if so.done then
        ⟨so.env, pg', acc + so.reward, iterEvs render true⟩
      else
        let rest := runSteps sem render n so.env so.obs pg' (acc + so.reward)
        ⟨rest.envS, rest.pg, rest.epSum, iterEvs render false ++ rest.trace⟩

/-- The running-reward accumulator update (`pg.py`, lines 178-181 and
209-212): the bare `except:` on the first episode (unbound name,
modelled by `none`) sets it to `ep_rs_sum`; afterwards it becomes
`running_reward * 0.99 + ep_rs_sum * 0.01`. -/
def runningRewardUpd : Option ℝ → ℝ → ℝ
  | none, e => e
  | some v, e => v * 0.99 + e * 0.01

/-- The sequence of running-reward values produced from an initial
accumulator and the per-episode reward sums. -/
def runningFold : Option ℝ → List ℝ → List ℝ
  | _, [] => []
  | rr, e :: rest => runningRewardUpd rr e :: runningFold (some (runningRewardUpd rr e)) rest

/-- The training episode loop (`pg.py`, lines 159-191): for each episode,
reset the environment, run the inner step loop, update the running
reward, append it to `reward_buffer`, call `PG.update`, and save a
checkpoint when the 1-based episode index is a multiple of
`save_interval`.  Returns the final environment state and `PG` state, the
list of per-episode reward sums, the `reward_buffer`, and the event
trace; `none` propagates a failing `PG.update`. -/
noncomputable def runEpisodes (sem : PGSem E O A Θ) (render : Bool)
    (maxSteps saveInterval : ℕ) (gamma : ℝ) :
    ℕ → ℕ → E → PGState O A Θ → Option ℝ →
      Option (E × PGState O A Θ × List ℝ × List ℝ × List Ev)
  | 0, _, es, pg, _ => some (es, pg, [], [], [])
  | n + 1, i, es, pg, rr =>
      let r0 := sem.resetF es
      let st := runSteps sem render maxSteps r0.1 r0.2 pg 0
      let rr' := runningRewardUpd rr st.epSum
      match PG.update sem gamma st.pg with
      | none => none
      | some (pg2, _) =>
          match runEpisodes sem render maxSteps saveInterval gamma n (i + 1) st.envS pg2
              (some rr') with
          | none => none
          | some (esF, pgF, sums, buf, tr) =>
              some (esF, pgF, st.epSum :: sums, rr' :: buf,
                (Ev.reset :: (st.trace ++ [Ev.update] ++
                  (if i % saveInterval = 0 then [Ev.save] else []))) ++ tr)

/-- The events of one iteration of the test episode loop
(`pg.py`, lines 201-208): an optional `env.render()`, the greedy policy
forward pass, and one `env.step`; no transition is stored. -/
def iterEvsTest (render : Bool) (d : Bool) : List Ev :=
  (if render then [Ev.render] else []) ++ [Ev.chooseGreedy, Ev.step d]

/-- The inner step loop of a test episode (`pg.py`, lines 201-208). -/
def runStepsTest (sem : PGSem E O A Θ) (render : Bool) :
    ℕ → E → O → Θ → ℝ → E × ℝ × List Ev
  | 0, es, _, _, acc => (es, acc, [])
  | n + 1, es, obs, θ, acc =>
      let a := sem.chooseGreedy θ obs
      let so := sem.stepF es a
      if so.done then
        (so.env, acc + so.reward, iterEvsTest render true)
      else
        let rest := runStepsTest sem render n so.env so.obs θ (acc + so.reward)
        (rest.1, rest.2.1, iterEvsTest render false ++ rest.2.2)

/-- The test episode loop (`pg.py`, lines 198-215): reset, run the inner
test step loop, update the running reward (recorded as a ghost output),
and continue; no transition storage, gradient update, or checkpoint
saving happens.  Returns the final environment state, the per-episode
reward sums, the running-reward values, and the event trace. -/
def runEpisodesTest (sem : PGSem E O A Θ) (render : Bool) (maxSteps : ℕ) :
    ℕ → E → Θ → Option ℝ → E × List ℝ × List ℝ × List Ev
  | 0, es, _, _ => (es, [], [], [])
  | n + 1, es, θ, rr =>
      let r0 := sem.resetF es
      let st := runStepsTest sem render maxSteps r0.1 r0.2 θ 0
      let rr' := runningRewardUpd rr st.2.1
      let rest := runEpisodesTest sem render maxSteps n st.1 θ (some rr')
      (rest.1, st.2.1 :: rest.2.1, rr' :: rest.2.2.1,
        (Ev.reset :: st.2.2) ++ rest.2.2.2)

/-- Python truthiness of the `seed` argument of `PG.learn`
(`if seed:`, line 149): `None` and `0` are falsy, every other integer is
truthy. -/
def seedTruthy : Option ℤ → Bool
  | none => false
  | some z => decide (z ≠ 0)

/-- The environment state after the optional `env.seed(seed)` call of
`PG.learn` (line 153): the environment RNG is seeded only when the seed
argument is truthy. -/
def appliedSeed {E O A Θ : Type} (sem : PGSem E O A Θ) (env0 : E) : Option ℤ → E
  | some z => if z = 0 then env0 else sem.seedF env0 z
  | none => env0

/-- The events of the seeding block of `PG.learn` (lines 149-153):
`np.random.seed`, `tf.random.set_seed` and `env.seed`, executed only when
the `seed` argument is truthy. -/
def seedEvents (seed : Option ℤ) : List Ev :=
  if seedTruthy seed then [Ev.seedNp, Ev.seedTf, Ev.seedEnv] else []

/-- The observable outcome of one `PG.learn` call: final environment
state, final `PG` state, the per-episode reward sums and running-reward
values (ghost observations of local variables), and the event trace. -/
structure LearnResult (E O A Θ : Type) where
  envS : E
  pg : PGState O A Θ
  epSums : List ℝ
  rewardBuffer : List ℝ
  trace : List Ev

/-- `PG.learn` (`pg.py`, lines 133-218): seed the RNGs when `seed` is
truthy, then dispatch on `mode`.  In `'train'` mode run the training
episode loop followed by `plot_save_log`; in `'test'` mode load the
checkpoint and run the test episode loop; for any other mode only print
a message and return.

`plot_save_log` and the checkpoint helpers `save_model` / `load_model`
live in `common/utils.py`, which is not part of the sources.  Modelled
from the spec: the specification lists environment calls and
framework-provided checkpoint file I/O as the only externally visible
surface, so `save_model` / `load_model` are modelled as the checkpoint
I/O events `Ev.save` / `Ev.load` (with `load_model` replacing the
weights via the abstract `loadCkpt`), and `plot_save_log` as the
in-process logging event `Ev.plotLog` with no further effect. -/
noncomputable def PG.learn (sem : PGSem E O A Θ) (env0 : E) (pg : PGState O A Θ)
    (train_episodes test_episodes max_steps save_interval : ℕ)
    (mode : String) (render : Bool) (gamma : ℝ) (seed : Option ℤ) :
    Option (LearnResult E O A Θ) :=
  let es0 := appliedSeed sem env0 seed
  if mode = "train" then
    match runEpisodes sem render max_steps save_interval gamma train_episodes 1 es0 pg
        none with
    | none => none
    | some (es, pg', sums, buf, tr) =>
        some ⟨es, pg', sums, buf, seedEvents seed ++ tr ++ [Ev.plotLog]⟩
  else if mode = "test" then
    let r := runEpisodesTest sem render max_steps test_episodes es0 (sem.loadCkpt pg.θ)
      none
    some ⟨r.1, ⟨pg.buffer, sem.loadCkpt pg.θ⟩, r.2.1, r.2.2.1,
      seedEvents seed ++ (Ev.load :: r.2.2.2)⟩
  else
    some ⟨es0, pg, [], [], seedEvents seed⟩

end PGModel

section PGBuffer

variable {E O A Θ : Type}

lemma PG.update_of_ne_nil (sem : PGSem E O A Θ) (gamma : ℝ) (pg : PGState O A Θ)
    (h : pg.buffer ≠ []) :
    PG.update sem gamma pg =
      some (⟨[], sem.gradStep pg.θ pg.buffer
          (discount_and_norm_rewards (pg.buffer.map (fun t => t.2.2)) gamma)⟩,
        discount_and_norm_rewards (pg.buffer.map (fun t => t.2.2)) gamma) := by
  unfold PG.update
  rw [if_neg (by simpa using h)]

/-- Claim C2: for every `PG` state with a non-empty transition buffer,
`PG.update` returns (rather than raising) and the resulting in-memory
transition buffer is empty — the transitions accumulated during the
episode are discarded by the gradient update — and every call to
`PG.store_transition` appends exactly one `(state, action, reward)` tuple
to the buffer. -/
theorem pg_update_clears_buffer (sem : PGSem E O A Θ) (gamma : ℝ)
    (pg : PGState O A Θ) (h : pg.buffer ≠ []) :
    (∃ pg' disc, PG.update sem gamma pg = some (pg', disc) ∧ pg'.buffer = []) ∧
    (∀ (s : O) (a : A) (r : ℝ),
      (PG.store_transition pg s a r).buffer = pg.buffer ++ [(s, a, r)]) := by
  refine ⟨⟨_, _, PG.update_of_ne_nil sem gamma pg h, rfl⟩, ?_⟩
  intro s a r
  rfl

/-- A trivial concrete environment / policy semantics over unit types,
used to instantiate the `PG` theorems at concrete inputs. -/
def trivSem : PGSem Unit Unit Unit Unit :=
  ⟨fun e => (e, ()), fun e _ => ⟨e, (), 0, true⟩, fun e _ => e,
    fun _ _ => (), fun _ _ => (), fun θ _ _ => θ, fun θ => θ⟩

/-- Witness for C2 at a concrete one-element buffer over trivial state,
action and weight types. -/
theorem pg_update_clears_buffer_witness :
    (PGState.buffer (O := Unit) (A := Unit) (Θ := Unit) ⟨[((), (), 0)], ()⟩ ≠ []) ∧
    ((∃ pg' disc,
        PG.update trivSem 0 ⟨[((), (), 0)], ()⟩ = some (pg', disc) ∧ pg'.buffer = []) ∧
      (∀ (s : Unit) (a : Unit) (r : ℝ),
        (PG.store_transition (Θ := Unit) ⟨[((), (), 0)], ()⟩ s a r).buffer =
          [((), (), 0)] ++ [(s, a, r)])) :=
  ⟨List.cons_ne_nil _ _,
    pg_update_clears_buffer trivSem 0 ⟨[((), (), 0)], ()⟩ (List.cons_ne_nil _ _)⟩

end PGBuffer

section PGLoopLemmas

variable {E O A Θ : Type}

lemma runSteps_zero (sem : PGSem E O A Θ) (render : Bool) (es : E) (obs : O)
    (pg : PGState O A Θ) (acc : ℝ) :
    runSteps sem render 0 es obs pg acc = ⟨es, pg, acc, []⟩ := rfl

lemma runSteps_succ_done (sem : PGSem E O A Θ) (render : Bool) (n : ℕ) (es : E)
    (obs : O) (pg : PGState O A Θ) (acc : ℝ)
    (hd : (sem.stepF es (sem.choose pg.θ obs)).done = true) :
    runSteps sem render (n + 1) es obs pg acc =
      ⟨(sem.stepF es (sem.choose pg.θ obs)).env,
        PG.store_transition pg obs (sem.choose pg.θ obs)
          (sem.stepF es (sem.choose pg.θ obs)).reward,
        acc + (sem.stepF es (sem.choose pg.θ obs)).reward,
        iterEvs render true⟩ := by
  simp only [runSteps, hd, if_true]

lemma runSteps_succ_not_done (sem : PGSem E O A Θ) (render : Bool) (n : ℕ) (es : E)
    (obs : O) (pg : PGState O A Θ) (acc : ℝ)
    (hd : (sem.stepF es (sem.choose pg.θ obs)).done = false) :
    runSteps sem render (n + 1) es obs pg acc =
      ⟨(runSteps sem render n (sem.stepF es (sem.choose pg.θ obs)).env
          (sem.stepF es (sem.choose pg.θ obs)).obs
          (PG.store_transition pg obs (sem.choose pg.θ obs)
            (sem.stepF es (sem.choose pg.θ obs)).reward)
          (acc + (sem.stepF es (sem.choose pg.θ obs)).reward)).envS,
        (runSteps sem render n (sem.stepF es (sem.choose pg.θ obs)).env
          (sem.stepF es (sem.choose pg.θ obs)).obs
          (PG.store_transition pg obs (sem.choose pg.θ obs)
            (sem.stepF es (sem.choose pg.θ obs)).reward)
          (acc + (sem.stepF es (sem.choose pg.θ obs)).reward)).pg,
        (runSteps sem render n (sem.stepF es (sem.choose pg.θ obs)).env
          (sem.stepF es (sem.choose pg.θ obs)).obs
          (PG.store_transition pg obs (sem.choose pg.θ obs)
            (sem.stepF es (sem.choose pg.θ obs)).reward)
          (acc + (sem.stepF es (sem.choose pg.θ obs)).reward)).epSum,
        iterEvs render false ++
          (runSteps sem render n (sem.stepF es (sem.choose pg.θ obs)).env
            (sem.stepF es (sem.choose pg.θ obs)).obs
            (PG.store_transition pg obs (sem.choose pg.θ obs)
              (sem.stepF es (sem.choose pg.θ obs)).reward)
            (acc + (sem.stepF es (sem.choose pg.θ obs)).reward)).trace⟩ := by
  simp only [runSteps, hd, Bool.false_eq_true, if_false]

/-- The inner step loop only ever appends to the transition buffer, and
appends at least one transition as soon as it runs at least one
iteration. -/
lemma runSteps_buffer (sem : PGSem E O A Θ) (render : Bool) :
    ∀ (n : ℕ) (es : E) (obs : O) (pg : PGState O A Θ) (acc : ℝ),
      ∃ ts, (runSteps sem render n es obs pg acc).pg.buffer = pg.buffer ++ ts ∧
        (0 < n → ts ≠ []) := by
  intro n
  induction n with
  | zero =>
    intro es obs pg acc
    exact ⟨[], by simp [runSteps_zero], by omega⟩
  | succ n ih =>
    intro es obs pg acc
    cases hd : (sem.stepF es (sem.choose pg.θ obs)).done
    · obtain ⟨ts, hts, _⟩ := ih (sem.stepF es (sem.choose pg.θ obs)).env
        (sem.stepF es (sem.choose pg.θ obs)).obs
        (PG.store_transition pg obs (sem.choose pg.θ obs)
          (sem.stepF es (sem.choose pg.θ obs)).reward)
        (acc + (sem.stepF es (sem.choose pg.θ obs)).reward)
      refine ⟨(obs, sem.choose pg.θ obs,
        (sem.stepF es (sem.choose pg.θ obs)).reward) :: ts, ?_,
        fun _ => List.cons_ne_nil _ _⟩
      rw [runSteps_succ_not_done sem render n es obs pg acc hd]
      simpa [PG.store_transition] using hts
    · refine ⟨[(obs, sem.choose pg.θ obs,
        (sem.stepF es (sem.choose pg.θ obs)).reward)], ?_,
        fun _ => List.cons_ne_nil _ _⟩
      rw [runSteps_succ_done sem render n es obs pg acc hd]
      rfl

/-- Shape of the trace of the inner step loop: some number `k + 1` of
iterations bounded by the fuel, with every iteration but the last
reporting `done = false`, and the last reporting `done = true` whenever
the loop stopped before exhausting `max_steps`. -/
lemma runSteps_trace (sem : PGSem E O A Θ) (render : Bool) :
    ∀ (n : ℕ) (es : E) (obs : O) (pg : PGState O A Θ) (acc : ℝ),
      ∃ k d, k + 1 ≤ n + 1 ∧ (k + 1 < n + 1 → d = true) ∧
        (runSteps sem render (n + 1) es obs pg acc).trace =
          ((List.replicate k false ++ [d]).map (iterEvs render)).flatten := by
  intro n
  induction n with
  | zero =>
    intro es obs pg acc
    cases hd : (sem.stepF es (sem.choose pg.θ obs)).done
    · refine ⟨0, false, le_refl _, by omega, ?_⟩
      rw [runSteps_succ_not_done sem render 0 es obs pg acc hd]
      simp [runSteps_zero]
    · refine ⟨0, true, le_refl _, fun _ => rfl, ?_⟩
      rw [runSteps_succ_done sem render 0 es obs pg acc hd]
      simp
  | succ n ih =>
    intro es obs pg acc
    cases hd : (sem.stepF es (sem.choose pg.θ obs)).done
    · obtain ⟨k, d, hk, hlast, htr⟩ := ih (sem.stepF es (sem.choose pg.θ obs)).env
        (sem.stepF es (sem.choose pg.θ obs)).obs
        (PG.store_transition pg obs (sem.choose pg.θ obs)
          (sem.stepF es (sem.choose pg.θ obs)).reward)
        (acc + (sem.stepF es (sem.choose pg.θ obs)).reward)
      refine ⟨k + 1, d, by omega, fun h => hlast (by omega), ?_⟩
      rw [runSteps_succ_not_done sem render (n + 1) es obs pg acc hd]
      simp only [htr, List.replicate_succ, List.cons_append, List.map_cons,
        List.flatten_cons]
    · refine ⟨0, true, by omega, fun _ => rfl, ?_⟩
      rw [runSteps_succ_done sem render (n + 1) es obs pg acc hd]
      simp

lemma iterEvs_mem (render d : Bool) (e : Ev) (he : e ∈ iterEvs render d) :
    e = Ev.render ∨ e = Ev.choose ∨ (∃ d2, e = Ev.step d2) ∨ e = Ev.store := by
  have hd4 : e = Ev.render ∨ e = Ev.choose ∨ e = Ev.step d ∨ e = Ev.store := by
    unfold iterEvs at he
    cases render <;> simp at he <;> tauto
  have hex : e = Ev.step d → ∃ d2, e = Ev.step d2 := fun hh => ⟨d, hh⟩
  tauto

/-- Every event of the inner training step loop is a render, a policy
forward pass, an environment step, or a buffer append. -/
lemma runSteps_trace_mem (sem : PGSem E O A Θ) (render : Bool) :
    ∀ (n : ℕ) (es : E) (obs : O) (pg : PGState O A Θ) (acc : ℝ),
      ∀ e ∈ (runSteps sem render n es obs pg acc).trace,
        e = Ev.render ∨ e = Ev.choose ∨ (∃ d, e = Ev.step d) ∨ e = Ev.store := by
  intro n
  induction n with
  | zero =>
    intro es obs pg acc e he
    rw [runSteps_zero] at he
    simp at he
  | succ n ih =>
    intro es obs pg acc e he
    cases hd : (sem.stepF es (sem.choose pg.θ obs)).done
    · rw [runSteps_succ_not_done sem render n es obs pg acc hd] at he
      simp only [List.mem_append] at he
      rcases he with he | he
      · exact iterEvs_mem render false e he
      · exact ih _ _ _ _ e he
    · rw [runSteps_succ_done sem render n es obs pg acc hd] at he
      exact iterEvs_mem render true e he

end PGLoopLemmas

section PGEpisodeLemmas

variable {E O A Θ : Type}

/-- Shape of the event trace of one training episode: one `env.reset`,
then `k + 1 ≤ max_steps` loop iterations of which all but the last report
`done = false` (and the last reports `done = true` whenever the loop
stopped before `max_steps`), then exactly one gradient `update`, then a
checkpoint save exactly when `withSave` holds. -/
def EpisodeShape (render : Bool) (ms : ℕ) (withSave : Prop) [Decidable withSave]
    (b : List Ev) : Prop :=
  ∃ k d, k + 1 ≤ ms ∧ (k + 1 < ms → d = true) ∧
    b = Ev.reset :: (((List.replicate k false ++ [d]).map (iterEvs render)).flatten ++
      [Ev.update] ++ (if withSave then [Ev.save] else []))

/-- Number of checkpoint saves performed by `n` training episodes whose
1-based indices start at `i`: one save for each index divisible by
`save_interval`. -/
def saveCount (si : ℕ) : ℕ → ℕ → ℕ
  | _, 0 => 0
  | i, n + 1 => (if i % si = 0 then 1 else 0) + saveCount si (i + 1) n

lemma saveCount_succ (si i n : ℕ) :
    saveCount si i (n + 1) = (if i % si = 0 then 1 else 0) + saveCount si (i + 1) n := rfl

lemma runEpisodes_zero (sem : PGSem E O A Θ) (render : Bool) (ms si : ℕ) (gamma : ℝ)
    (i : ℕ) (es : E) (pg : PGState O A Θ) (rr : Option ℝ) :
    runEpisodes sem render ms si gamma 0 i es pg rr = some (es, pg, [], [], []) := rfl

lemma runEpisodes_succ_eq (sem : PGSem E O A Θ) (render : Bool) (ms si : ℕ)
    (gamma : ℝ) (n i : ℕ) (es : E) (pg : PGState O A Θ) (rr : Option ℝ)
    {pgU : PGState O A Θ} {discU : List ℝ}
    (hupd : PG.update sem gamma
        (runSteps sem render ms (sem.resetF es).1 (sem.resetF es).2 pg 0).pg =
      some (pgU, discU))
    {esF : E} {pgF : PGState O A Θ} {sums buf : List ℝ} {tr : List Ev}
    (hrec : runEpisodes sem render ms si gamma n (i + 1)
        (runSteps sem render ms (sem.resetF es).1 (sem.resetF es).2 pg 0).envS pgU
        (some (runningRewardUpd rr
          (runSteps sem render ms (sem.resetF es).1 (sem.resetF es).2 pg 0).epSum)) =
      some (esF, pgF, sums, buf, tr)) :
    runEpisodes sem render ms si gamma (n + 1) i es pg rr =
      some (esF, pgF,
        (runSteps sem render ms (sem.resetF es).1 (sem.resetF es).2 pg 0).epSum :: sums,
        runningRewardUpd rr
          (runSteps sem render ms (sem.resetF es).1 (sem.resetF es).2 pg 0).epSum :: buf,
        (Ev.reset ::
          ((runSteps sem render ms (sem.resetF es).1 (sem.resetF es).2 pg 0).trace ++
            [Ev.update] ++ (if i % si = 0 then [Ev.save] else []))) ++ tr) := by
  simp only [runEpisodes, hupd, hrec]

lemma runSteps_count_save (sem : PGSem E O A Θ) (render : Bool) (n : ℕ) (es : E)
    (obs : O) (pg : PGState O A Θ) (acc : ℝ) :
    (runSteps sem render n es obs pg acc).trace.count Ev.save = 0 := by
  rw [List.count_eq_zero]
  intro hmem
  rcases runSteps_trace_mem sem render n es obs pg acc Ev.save hmem with
    h | h | ⟨d, h⟩ | h <;> simp at h

/-- Full description of the training episode loop when `max_steps` is
positive: it returns, the per-episode reward sums and the reward buffer
have one entry per episode with the buffer obtained by the running-reward
fold, and the trace is a concatenation of per-episode blocks of the
documented shape, with one checkpoint save per index divisible by
`save_interval`. -/
lemma runEpisodes_spec (sem : PGSem E O A Θ) (render : Bool) (ms si : ℕ) (gamma : ℝ)
    (hms : 0 < ms) :
    ∀ (n i : ℕ) (es : E) (pg : PGState O A Θ) (rr : Option ℝ),
      ∃ es2 pg2 sums buf tr blocks,
        runEpisodes sem render ms si gamma n i es pg rr =
          some (es2, pg2, sums, buf, tr) ∧
        sums.length = n ∧ buf = runningFold rr sums ∧
        blocks.length = n ∧ tr = List.flatten blocks ∧
        (∀ j, j < n → EpisodeShape render ms ((i + j) % si = 0) (blocks.getD j [])) ∧
        tr.count Ev.save = saveCount si i n := by
  intro n
  induction n with
  | zero =>
    intro i es pg rr
    exact ⟨es, pg, [], [], [], [], runEpisodes_zero sem render ms si gamma i es pg rr,
      rfl, rfl, rfl, rfl, fun j hj => absurd hj (by omega), rfl⟩
  | succ n ih =>
    intro i es pg rr
    obtain ⟨ts, hts, htsne⟩ :=
      runSteps_buffer sem render ms (sem.resetF es).1 (sem.resetF es).2 pg 0
    have hne : (runSteps sem render ms (sem.resetF es).1 (sem.resetF es).2 pg 0).pg.buffer
        ≠ [] := by
      rw [hts]
      intro hcontra
      exact (htsne hms) (List.append_eq_nil.mp hcontra).2
    have hupd := PG.update_of_ne_nil sem gamma
      (runSteps sem render ms (sem.resetF es).1 (sem.resetF es).2 pg 0).pg hne
    obtain ⟨es2, pg2, sums, buf, tr, blocks, hrun, hlen, hbufeq, hblen, htr, hshape,
      hcount⟩ := ih (i + 1)
      (runSteps sem render ms (sem.resetF es).1 (sem.resetF es).2 pg 0).envS
      ⟨[], sem.gradStep
        (runSteps sem render ms (sem.resetF es).1 (sem.resetF es).2 pg 0).pg.θ
        (runSteps sem render ms (sem.resetF es).1 (sem.resetF es).2 pg 0).pg.buffer
        (discount_and_norm_rewards
          ((runSteps sem render ms (sem.resetF es).1 (sem.resetF es).2 pg 0).pg.buffer.map
            (fun t => t.2.2)) gamma)⟩
      (some (runningRewardUpd rr
        (runSteps sem render ms (sem.resetF es).1 (sem.resetF es).2 pg 0).epSum))
    refine ⟨es2, pg2,
      (runSteps sem render ms (sem.resetF es).1 (sem.resetF es).2 pg 0).epSum :: sums,
      runningRewardUpd rr
        (runSteps sem render ms (sem.resetF es).1 (sem.resetF es).2 pg 0).epSum :: buf,
      (Ev.reset ::
        ((runSteps sem render ms (sem.resetF es).1 (sem.resetF es).2 pg 0).trace ++
          [Ev.update] ++ (if i % si = 0 then [Ev.save] else []))) ++ tr,
      (Ev.reset ::
        ((runSteps sem render ms (sem.resetF es).1 (sem.resetF es).2 pg 0).trace ++
          [Ev.update] ++ (if i % si = 0 then [Ev.save] else []))) :: blocks,
      runEpisodes_succ_eq sem render ms si gamma n i es pg rr hupd hrun, ?_, ?_, ?_, ?_,
      ?_, ?_⟩
    · rw [List.length_cons, hlen]
    · rw [hbufeq]
      rfl
    · rw [List.length_cons, hblen]
    · rw [List.flatten_cons, htr]
    · intro j hj
      cases j with
      | zero =>
        obtain ⟨m, hm⟩ := Nat.exists_eq_succ_of_ne_zero hms.ne'
        subst hm
        obtain ⟨k, d, hk, hlast, htrace⟩ :=
          runSteps_trace sem render m (sem.resetF es).1 (sem.resetF es).2 pg 0
        refine ⟨k, d, hk, hlast, ?_⟩
        simp only [List.getD_cons_zero, Nat.add_zero]
        rw [htrace]
      | succ j2 =>
        simp only [List.getD_cons_succ]
        have hidx : i + (j2 + 1) = (i + 1) + j2 := by omega
        rw [hidx]
        exact hshape j2 (by omega)
    · rw [List.count_append, hcount, saveCount_succ]
      by_cases h : i % si = 0
      · simp [h, List.count_append, List.count_cons, runSteps_count_save]
      · simp [h, List.count_append, List.count_cons, runSteps_count_save]

end PGEpisodeLemmas

section PGTraceMem

variable {E O A Θ : Type}

/-- Events that can occur inside the body of the training episode loop. -/
def TrainBodyEv (e : Ev) : Prop :=
  e = Ev.reset ∨ e = Ev.render ∨ e = Ev.choose ∨ (∃ d, e = Ev.step d) ∨
    e = Ev.store ∨ e = Ev.update ∨ e = Ev.save

/-- Events that can occur inside the body of the test episode loop. -/
def TestBodyEv (e : Ev) : Prop :=
  e = Ev.reset ∨ e = Ev.render ∨ e = Ev.chooseGreedy ∨ (∃ d, e = Ev.step d)

lemma runEpisodes_trace_mem (sem : PGSem E O A Θ) (render : Bool) (ms si : ℕ)
    (gamma : ℝ) :
    ∀ (n i : ℕ) (es : E) (pg : PGState O A Θ) (rr : Option ℝ)
      (es2 : E) (pg2 : PGState O A Θ) (sums buf : List ℝ) (tr : List Ev),
      runEpisodes sem render ms si gamma n i es pg rr = some (es2, pg2, sums, buf, tr) →
      ∀ e ∈ tr, TrainBodyEv e := by
  intro n
  induction n with
  | zero =>
    intro i es pg rr es2 pg2 sums buf tr h e he
    rw [runEpisodes_zero] at h
    simp only [Option.some.injEq, Prod.mk.injEq] at h
    obtain ⟨-, -, -, -, htr⟩ := h
    rw [← htr] at he
    simp at he
  | succ n ih =>
    intro i es pg rr es2 pg2 sums buf tr h e he
    cases hu : PG.update sem gamma
        (runSteps sem render ms (sem.resetF es).1 (sem.resetF es).2 pg 0).pg with
    | none =>
      simp only [runEpisodes, hu] at h
      exact Option.noConfusion h
    | some p =>
      obtain ⟨pgU, discU⟩ := p
      cases hr2 : runEpisodes sem render ms si gamma n (i + 1)
          (runSteps sem render ms (sem.resetF es).1 (sem.resetF es).2 pg 0).envS pgU
          (some (runningRewardUpd rr
            (runSteps sem render ms (sem.resetF es).1 (sem.resetF es).2 pg 0).epSum)) with
      | none =>
        simp only [runEpisodes, hu, hr2] at h
        exact Option.noConfusion h
      | some out =>
        obtain ⟨esF, pgF, sumsF, bufF, trF⟩ := out
        have heq := runEpisodes_succ_eq sem render ms si gamma n i es pg rr hu hr2
        rw [heq] at h
        simp only [Option.some.injEq, Prod.mk.injEq] at h
        obtain ⟨-, -, -, -, htr⟩ := h
        rw [← htr] at he
        rcases List.mem_append.mp he with he1 | he2
        · rcases List.mem_cons.mp he1 with rfl | he1b
          · exact Or.inl rfl
          · rcases List.mem_append.mp he1b with he1c | he1d
            · rcases List.mem_append.mp he1c with he1e | he1f
              · have hstep := runSteps_trace_mem sem render ms (sem.resetF es).1
                  (sem.resetF es).2 pg 0 e he1e
                unfold TrainBodyEv
                tauto
              · simp only [List.mem_singleton] at he1f
                unfold TrainBodyEv
                tauto
            · by_cases hc : i % si = 0
              · rw [if_pos hc] at he1d
                simp only [List.mem_singleton] at he1d
                unfold TrainBodyEv
                tauto
              · rw [if_neg hc] at he1d
                simp at he1d
        · exact ih (i + 1) _ pgU _ esF pgF sumsF bufF trF hr2 e he2

lemma iterEvsTest_mem (render d : Bool) (e : Ev) (he : e ∈ iterEvsTest render d) :
    e = Ev.render ∨ e = Ev.chooseGreedy ∨ (∃ d2, e = Ev.step d2) := by
  have hd3 : e = Ev.render ∨ e = Ev.chooseGreedy ∨ e = Ev.step d := by
    unfold iterEvsTest at he
    cases render <;> simp at he <;> tauto
  have hex : e = Ev.step d → ∃ d2, e = Ev.step d2 := fun hh => ⟨d, hh⟩
  tauto

lemma runStepsTest_zero (sem : PGSem E O A Θ) (render : Bool) (es : E) (obs : O)
    (θ : Θ) (acc : ℝ) : runStepsTest sem render 0 es obs θ acc = (es, acc, []) := rfl

lemma runStepsTest_succ_done (sem : PGSem E O A Θ) (render : Bool) (n : ℕ) (es : E)
    (obs : O) (θ : Θ) (acc : ℝ)
    (hd : (sem.stepF es (sem.chooseGreedy θ obs)).done = true) :
    runStepsTest sem render (n + 1) es obs θ acc =
      ((sem.stepF es (sem.chooseGreedy θ obs)).env,
        acc + (sem.stepF es (sem.chooseGreedy θ obs)).reward,
        iterEvsTest render true) := by
  simp only [runStepsTest, hd, if_true]

lemma runStepsTest_succ_not_done (sem : PGSem E O A Θ) (render : Bool) (n : ℕ)
    (es : E) (obs : O) (θ : Θ) (acc : ℝ)
    (hd : (sem.stepF es (sem.chooseGreedy θ obs)).done = false) :
    runStepsTest sem render (n + 1) es obs θ acc =
      ((runStepsTest sem render n (sem.stepF es (sem.chooseGreedy θ obs)).env
          (sem.stepF es (sem.chooseGreedy θ obs)).obs θ
          (acc + (sem.stepF es (sem.chooseGreedy θ obs)).reward)).1,
        (runStepsTest sem render n (sem.stepF es (sem.chooseGreedy θ obs)).env
          (sem.stepF es (sem.chooseGreedy θ obs)).obs θ
          (acc + (sem.stepF es (sem.chooseGreedy θ obs)).reward)).2.1,
        iterEvsTest render false ++
          (runStepsTest sem render n (sem.stepF es (sem.chooseGreedy θ obs)).env
            (sem.stepF es (sem.chooseGreedy θ obs)).obs θ
            (acc + (sem.stepF es (sem.chooseGreedy θ obs)).reward)).2.2) := by
  simp only [runStepsTest, hd, Bool.false_eq_true, if_false]

lemma runStepsTest_trace_mem (sem : PGSem E O A Θ) (render : Bool) :
    ∀ (n : ℕ) (es : E) (obs : O) (θ : Θ) (acc : ℝ),
      ∀ e ∈ (runStepsTest sem render n es obs θ acc).2.2,
        e = Ev.render ∨ e = Ev.chooseGreedy ∨ (∃ d, e = Ev.step d) := by
  intro n
  induction n with
  | zero =>
    intro es obs θ acc e he
    rw [runStepsTest_zero] at he
    simp at he
  | succ n ih =>
    intro es obs θ acc e he
    cases hd : (sem.stepF es (sem.chooseGreedy θ obs)).done
    · rw [runStepsTest_succ_not_done sem render n es obs θ acc hd] at he
      rcases List.mem_append.mp he with he1 | he2
      · exact iterEvsTest_mem render false e he1
      · exact ih _ _ _ _ e he2
    · rw [runStepsTest_succ_done sem render n es obs θ acc hd] at he
      exact iterEvsTest_mem render true e he

lemma runEpisodesTest_zero (sem : PGSem E O A Θ) (render : Bool) (ms : ℕ) (es : E)
    (θ : Θ) (rr : Option ℝ) :
    runEpisodesTest sem render ms 0 es θ rr = (es, [], [], []) := rfl

lemma runEpisodesTest_succ (sem : PGSem E O A Θ) (render : Bool) (ms : ℕ) (n : ℕ)
    (es : E) (θ : Θ) (rr : Option ℝ) :
    runEpisodesTest sem render ms (n + 1) es θ rr =
      ((runEpisodesTest sem render ms n
          (runStepsTest sem render ms (sem.resetF es).1 (sem.resetF es).2 θ 0).1 θ
          (some (runningRewardUpd rr
            (runStepsTest sem render ms (sem.resetF es).1 (sem.resetF es).2 θ 0).2.1))).1,
        (runStepsTest sem render ms (sem.resetF es).1 (sem.resetF es).2 θ 0).2.1 ::
          (runEpisodesTest sem render ms n
            (runStepsTest sem render ms (sem.resetF es).1 (sem.resetF es).2 θ 0).1 θ
            (some (runningRewardUpd rr
              (runStepsTest sem render ms (sem.resetF es).1 (sem.resetF es).2 θ 0).2.1))).2.1,
        runningRewardUpd rr
          (runStepsTest sem render ms (sem.resetF es).1 (sem.resetF es).2 θ 0).2.1 ::
          (runEpisodesTest sem render ms n
            (runStepsTest sem render ms (sem.resetF es).1 (sem.resetF es).2 θ 0).1 θ
            (some (runningRewardUpd rr
              (runStepsTest sem render ms (sem.resetF es).1 (sem.resetF es).2 θ 0).2.1))).2.2.1,
        (Ev.reset ::
          (runStepsTest sem render ms (sem.resetF es).1 (sem.resetF es).2 θ 0).2.2) ++
          (runEpisodesTest sem render ms n
            (runStepsTest sem render ms (sem.resetF es).1 (sem.resetF es).2 θ 0).1 θ
            (some (runningRewardUpd rr
              (runStepsTest sem render ms (sem.resetF es).1 (sem.resetF es).2 θ 0).2.1))).2.2.2) := by
  simp only [runEpisodesTest]

/-- The test episode loop is total and returns one reward sum and one
running-reward value per episode, the latter obtained by the
running-reward fold; all its events are environment interface calls or
greedy forward passes. -/
lemma runEpisodesTest_spec (sem : PGSem E O A Θ) (render : Bool) (ms : ℕ) :
    ∀ (n : ℕ) (es : E) (θ : Θ) (rr : Option ℝ),
      (runEpisodesTest sem render ms n es θ rr).2.1.length = n ∧
      (runEpisodesTest sem render ms n es θ rr).2.2.1 =
        runningFold rr (runEpisodesTest sem render ms n es θ rr).2.1 ∧
      ∀ e ∈ (runEpisodesTest sem render ms n es θ rr).2.2.2, TestBodyEv e := by
  intro n
  induction n with
  | zero =>
    intro es θ rr
    rw [runEpisodesTest_zero]
    exact ⟨rfl, rfl, fun e he => by simp at he⟩
  | succ n ih =>
    intro es θ rr
    obtain ⟨ihl, ihb, ihm⟩ := ih
      (runStepsTest sem render ms (sem.resetF es).1 (sem.resetF es).2 θ 0).1 θ
      (some (runningRewardUpd rr
        (runStepsTest sem render ms (sem.resetF es).1 (sem.resetF es).2 θ 0).2.1))
    rw [runEpisodesTest_succ]
    refine ⟨by simpa using ihl, by rw [runningFold]; exact congrArg _ ihb, ?_⟩
    intro e he
    rcases List.mem_append.mp he with he1 | he2
    · rcases List.mem_cons.mp he1 with rfl | he1b
      · exact Or.inl rfl
      · have hstep := runStepsTest_trace_mem sem render ms (sem.resetF es).1
          (sem.resetF es).2 θ 0 e he1b
        unfold TestBodyEv
        tauto
    · exact ihm e he2

end PGTraceMem

section PGLearnEqs

variable {E O A Θ : Type}

lemma PG.learn_train_eq (sem : PGSem E O A Θ) (env0 : E) (pg : PGState O A Θ)
    (N T ms si : ℕ) (render : Bool) (gamma : ℝ) (seed : Option ℤ)
    {es2 : E} {pg2 : PGState O A Θ} {sums buf : List ℝ} {tr : List Ev}
    (h : runEpisodes sem render ms si gamma N 1 (appliedSeed sem env0 seed) pg none =
      some (es2, pg2, sums, buf, tr)) :
    PG.learn sem env0 pg N T ms si "train" render gamma seed =
      some ⟨es2, pg2, sums, buf, seedEvents seed ++ tr ++ [Ev.plotLog]⟩ := by
  simp only [PG.learn, h, if_true, eq_self_iff_true, List.append_assoc, List.cons_append]

lemma PG.learn_test_eq (sem : PGSem E O A Θ) (env0 : E) (pg : PGState O A Θ)
    (N T ms si : ℕ) (render : Bool) (gamma : ℝ) (seed : Option ℤ) :
    PG.learn sem env0 pg N T ms si "test" render gamma seed =
      some ⟨(runEpisodesTest sem render ms T (appliedSeed sem env0 seed)
          (sem.loadCkpt pg.θ) none).1,
        ⟨pg.buffer, sem.loadCkpt pg.θ⟩,
        (runEpisodesTest sem render ms T (appliedSeed sem env0 seed)
          (sem.loadCkpt pg.θ) none).2.1,
        (runEpisodesTest sem render ms T (appliedSeed sem env0 seed)
          (sem.loadCkpt pg.θ) none).2.2.1,
        seedEvents seed ++ (Ev.load :: (runEpisodesTest sem render ms T
          (appliedSeed sem env0 seed) (sem.loadCkpt pg.θ) none).2.2.2)⟩ := by
  have hne : ("test" : String) ≠ "train" := by decide
  simp only [PG.learn, if_neg hne, if_true, eq_self_iff_true]

lemma PG.learn_other_eq (sem : PGSem E O A Θ) (env0 : E) (pg : PGState O A Θ)
    (N T ms si : ℕ) (mode : String) (render : Bool) (gamma : ℝ) (seed : Option ℤ)
    (h1 : mode ≠ "train") (h2 : mode ≠ "test") :
    PG.learn sem env0 pg N T ms si mode render gamma seed =
      some ⟨appliedSeed sem env0 seed, pg, [], [], seedEvents seed⟩ := by
  simp only [PG.learn, if_neg h1, if_neg h2]

lemma seedEvents_of_true {seed : Option ℤ} (h : seedTruthy seed = true) :
    seedEvents seed = [Ev.seedNp, Ev.seedTf, Ev.seedEnv] := by
  unfold seedEvents
  rw [if_pos h]

lemma seedEvents_of_false {seed : Option ℤ} (h : seedTruthy seed = false) :
    seedEvents seed = [] := by
  unfold seedEvents
  rw [h]
  simp

lemma seedEvents_cases (seed : Option ℤ) :
    (seedTruthy seed = false ∧ seedEvents seed = []) ∨
    (seedTruthy seed = true ∧
      seedEvents seed = [Ev.seedNp, Ev.seedTf, Ev.seedEnv]) := by
  cases hsb : seedTruthy seed
  · exact Or.inl ⟨rfl, seedEvents_of_false hsb⟩
  · exact Or.inr ⟨rfl, seedEvents_of_true hsb⟩

lemma TrainBodyEv_not_seed {e : Ev} (h : TrainBodyEv e) :
    e ≠ Ev.seedNp ∧ e ≠ Ev.seedTf ∧ e ≠ Ev.seedEnv ∧ e ≠ Ev.load ∧ e ≠ Ev.plotLog := by
  unfold TrainBodyEv at h
  rcases h with h | h | h | ⟨d, h⟩ | h | h | h <;> subst h <;>
    refine ⟨?_, ?_, ?_, ?_, ?_⟩ <;> simp

lemma TestBodyEv_not_seed {e : Ev} (h : TestBodyEv e) :
    e ≠ Ev.seedNp ∧ e ≠ Ev.seedTf ∧ e ≠ Ev.seedEnv ∧ e ≠ Ev.load ∧ e ≠ Ev.save := by
  unfold TestBodyEv at h
  rcases h with h | h | h | ⟨d, h⟩ <;> subst h <;>
    refine ⟨?_, ?_, ?_, ?_, ?_⟩ <;> simp

/-- The trace of every completed `PG.learn` call splits into the seeding
prefix and a body free of RNG-seeding events. -/
lemma PG.learn_trace_split (sem : PGSem E O A Θ) (env0 : E) (pg : PGState O A Θ)
    (N T ms si : ℕ) (mode : String) (render : Bool) (gamma : ℝ) (seed : Option ℤ)
    (res : LearnResult E O A Θ)
    (h : PG.learn sem env0 pg N T ms si mode render gamma seed = some res) :
    ∃ body : List Ev, res.trace = seedEvents seed ++ body ∧
      ∀ e ∈ body, e ≠ Ev.seedNp ∧ e ≠ Ev.seedTf ∧ e ≠ Ev.seedEnv := by
  by_cases hm1 : mode = "train"
  · subst hm1
    cases hrun : runEpisodes sem render ms si gamma N 1 (appliedSeed sem env0 seed) pg
        none with
    | none =>
      rw [PG.learn] at h
      simp only [hrun, if_true, eq_self_iff_true] at h
      exact Option.noConfusion h
    | some out =>
      obtain ⟨es2, pg2, sums, buf, tr⟩ := out
      rw [PG.learn_train_eq sem env0 pg N T ms si render gamma seed hrun] at h
      obtain rfl := Option.some.inj h
      refine ⟨tr ++ [Ev.plotLog], by simp, ?_⟩
      intro e he
      rcases List.mem_append.mp he with he1 | he2
      · have := TrainBodyEv_not_seed
          (runEpisodes_trace_mem sem render ms si gamma N 1 _ pg none es2 pg2 sums buf
            tr hrun e he1)
        exact ⟨this.1, this.2.1, this.2.2.1⟩
      · simp only [List.mem_singleton] at he2
        subst he2
        exact ⟨by simp, by simp, by simp⟩
  · by_cases hm2 : mode = "test"
    · subst hm2
      rw [PG.learn_test_eq sem env0 pg N T ms si render gamma seed] at h
      obtain rfl := Option.some.inj h
      refine ⟨Ev.load :: (runEpisodesTest sem render ms T
        (appliedSeed sem env0 seed) (sem.loadCkpt pg.θ) none).2.2.2, rfl, ?_⟩
      intro e he
      rcases List.mem_cons.mp he with rfl | he2
      · exact ⟨by simp, by simp, by simp⟩
      · have := TestBodyEv_not_seed
          ((runEpisodesTest_spec sem render ms T (appliedSeed sem env0 seed)
            (sem.loadCkpt pg.θ) none).2.2 e he2)
        exact ⟨this.1, this.2.1, this.2.2.1⟩
    · rw [PG.learn_other_eq sem env0 pg N T ms si mode render gamma seed hm1 hm2] at h
      obtain rfl := Option.some.inj h
      exact ⟨[], by simp, fun e he => by simp at he⟩

end PGLearnEqs

section RunningFoldLemmas

lemma runningFold_length (rr : Option ℝ) (l : List ℝ) :
    (runningFold rr l).length = l.length := by
  induction l generalizing rr with
  | nil => rfl
  | cons e rest ih => simp only [runningFold, List.length_cons, ih]

lemma runningFold_getD_zero (l : List ℝ) (hl : l ≠ []) :
    (runningFold none l).getD 0 0 = l.getD 0 0 := by
  cases l with
  | nil => exact absurd rfl hl
  | cons e rest => rfl

lemma runningFold_getD_succ (l : List ℝ) :
    ∀ (rr : Option ℝ) (i : ℕ), i + 1 < l.length →
      (runningFold rr l).getD (i + 1) 0 =
        0.99 * (runningFold rr l).getD i 0 + 0.01 * l.getD (i + 1) 0 := by
  induction l with
  | nil => intro rr i h; simp at h
  | cons e rest ih =>
    intro rr i h
    cases i with
    | zero =>
      cases rest with
      | nil => simp at h
      | cons e2 rest2 =>
        show (runningFold (some (runningRewardUpd rr e)) (e2 :: rest2)).getD 0 0 = _
        simp only [runningFold, runningRewardUpd, List.getD_cons_zero,
          List.getD_cons_succ]
        ring
    | succ i2 =>
      show (runningFold (some (runningRewardUpd rr e)) rest).getD (i2 + 1) 0 = _
      rw [ih (some (runningRewardUpd rr e)) i2 (by simpa using h)]
      rfl

end RunningFoldLemmas

section LearnTheorems

variable {E O A Θ : Type}

/-- Claim C3: in train mode, `PG.learn` runs an episodic loop in which
every episode performs, in order: one `env.reset`; then at most
`max_steps` iterations each consisting of choosing an action, one
`env.step` and one `store_transition`, stopping early when the step
reports done; then exactly one call to `update`; then (after a possible
checkpoint save) it proceeds to the next episode, for `train_episodes`
episodes in total.  The trace is the concatenation of one block of this
shape per episode, between the seeding prefix and the final logging
call. -/
theorem pg_learn_train_episodic (sem : PGSem E O A Θ) (env0 : E) (pg : PGState O A Θ)
    (N T ms si : ℕ) (render : Bool) (gamma : ℝ) (seed : Option ℤ)
    (hms : 0 < ms) (hsi : 0 < si) :
    ∃ (res : LearnResult E O A Θ) (blocks : List (List Ev)),
      PG.learn sem env0 pg N T ms si "train" render gamma seed = some res ∧
      blocks.length = N ∧
      res.trace = seedEvents seed ++ List.flatten blocks ++ [Ev.plotLog] ∧
      ∀ j, j < N → EpisodeShape render ms ((j + 1) % si = 0) (blocks.getD j []) := by
  obtain ⟨es2, pg2, sums, buf, tr, blocks, hrun, -, -, hblen, htr, hshape, -⟩ :=
    runEpisodes_spec sem render ms si gamma hms N 1 (appliedSeed sem env0 seed) pg none
  refine ⟨⟨es2, pg2, sums, buf, seedEvents seed ++ tr ++ [Ev.plotLog]⟩, blocks,
    PG.learn_train_eq sem env0 pg N T ms si render gamma seed hrun, hblen,
    by rw [htr], ?_⟩
  intro j hj
  have hsh := hshape j hj
  rwa [Nat.add_comm 1 j] at hsh

/-- Witness for C3 at a concrete instantiation with one episode, one
step of fuel and save interval one over trivial types. -/
theorem pg_learn_train_episodic_witness :
    ((0 : ℕ) < 1 ∧ (0 : ℕ) < 1) ∧
    (∃ (res : LearnResult Unit Unit Unit Unit) (blocks : List (List Ev)),
      PG.learn trivSem () ⟨[], ()⟩ 1 0 1 1 "train" false 0 none = some res ∧
      blocks.length = 1 ∧
      res.trace = seedEvents none ++ List.flatten blocks ++ [Ev.plotLog] ∧
      ∀ j, j < 1 → EpisodeShape false 1 ((j + 1) % 1 = 0) (blocks.getD j [])) :=
  ⟨⟨by decide, by decide⟩,
    pg_learn_train_episodic trivSem () ⟨[], ()⟩ 1 0 1 1 false 0 none
      (by decide) (by decide)⟩

/-- Claim C4: the running-reward accumulator of `PG.learn` is initialised
through a bare exception catch, so that in both train and test mode the
loop completes with no escaping exception and the recorded running
rewards satisfy: the first equals that episode's reward sum, and each
later one equals `0.99 * previous + 0.01 * ep_rs_sum`.  As with the other
train-loop theorems, `save_interval` is required to be positive: the
model's total `Nat` mod is faithful to `i_episode % save_interval` only
there (at `save_interval = 0` the source raises `ZeroDivisionError` at
the save check, an exception outside the running-reward try/except). -/
theorem pg_learn_running_reward (sem : PGSem E O A Θ) (env0 : E) (pg : PGState O A Θ)
    (N T ms si : ℕ) (render : Bool) (gamma : ℝ) (seed : Option ℤ) (hms : 0 < ms)
    (hsi : 0 < si) :
    (∃ res : LearnResult E O A Θ,
      PG.learn sem env0 pg N T ms si "train" render gamma seed = some res ∧
      res.epSums.length = N ∧ res.rewardBuffer.length = N ∧
      (0 < N → res.rewardBuffer.getD 0 0 = res.epSums.getD 0 0) ∧
      (∀ i, i + 1 < N →
        res.rewardBuffer.getD (i + 1) 0 =
          0.99 * res.rewardBuffer.getD i 0 + 0.01 * res.epSums.getD (i + 1) 0)) ∧
    (∃ res : LearnResult E O A Θ,
      PG.learn sem env0 pg N T ms si "test" render gamma seed = some res ∧
      res.epSums.length = T ∧ res.rewardBuffer.length = T ∧
      (0 < T → res.rewardBuffer.getD 0 0 = res.epSums.getD 0 0) ∧
      (∀ i, i + 1 < T →
        res.rewardBuffer.getD (i + 1) 0 =
          0.99 * res.rewardBuffer.getD i 0 + 0.01 * res.epSums.getD (i + 1) 0)) := by
  constructor
  · obtain ⟨es2, pg2, sums, buf, tr, blocks, hrun, hlen, hbuf, -, -, -, -⟩ :=
      runEpisodes_spec sem render ms si gamma hms N 1 (appliedSeed sem env0 seed) pg
        none
    refine ⟨⟨es2, pg2, sums, buf, seedEvents seed ++ tr ++ [Ev.plotLog]⟩,
      PG.learn_train_eq sem env0 pg N T ms si render gamma seed hrun, hlen, ?_, ?_, ?_⟩
    · show buf.length = N
      rw [hbuf, runningFold_length, hlen]
    · intro hN
      show buf.getD 0 0 = sums.getD 0 0
      rw [hbuf]
      exact runningFold_getD_zero sums
        (by intro hnil; rw [hnil] at hlen; simp at hlen; omega)
    · intro i hi
      show buf.getD (i + 1) 0 = 0.99 * buf.getD i 0 + 0.01 * sums.getD (i + 1) 0
      rw [hbuf]
      exact runningFold_getD_succ sums none i (by rw [hlen]; exact hi)
  · obtain ⟨hlen, hbuf, -⟩ := runEpisodesTest_spec sem render ms T
      (appliedSeed sem env0 seed) (sem.loadCkpt pg.θ) none
    refine ⟨_, PG.learn_test_eq sem env0 pg N T ms si render gamma seed, hlen, ?_, ?_,
      ?_⟩
    · show (runEpisodesTest sem render ms T (appliedSeed sem env0 seed)
        (sem.loadCkpt pg.θ) none).2.2.1.length = T
      rw [hbuf, runningFold_length, hlen]
    · intro hT
      show (runEpisodesTest sem render ms T (appliedSeed sem env0 seed)
          (sem.loadCkpt pg.θ) none).2.2.1.getD 0 0 = _
      rw [hbuf]
      exact runningFold_getD_zero _
        (by intro hnil; rw [hnil] at hlen; simp at hlen; omega)
    · intro i hi
      show (runEpisodesTest sem render ms T (appliedSeed sem env0 seed)
          (sem.loadCkpt pg.θ) none).2.2.1.getD (i + 1) 0 = _
      rw [hbuf]
      exact runningFold_getD_succ _ none i (by rw [hlen]; exact hi)

/-- Witness for C4 at a concrete instantiation with two train and two
test episodes over trivial types. -/
theorem pg_learn_running_reward_witness :
    ((0 : ℕ) < 1 ∧ (0 : ℕ) < 1) ∧
    ((∃ res : LearnResult Unit Unit Unit Unit,
      PG.learn trivSem () ⟨[], ()⟩ 2 2 1 1 "train" false 0 none = some res ∧
      res.epSums.length = 2 ∧ res.rewardBuffer.length = 2 ∧
      (0 < 2 → res.rewardBuffer.getD 0 0 = res.epSums.getD 0 0) ∧
      (∀ i, i + 1 < 2 →
        res.rewardBuffer.getD (i + 1) 0 =
          0.99 * res.rewardBuffer.getD i 0 + 0.01 * res.epSums.getD (i + 1) 0)) ∧
    (∃ res : LearnResult Unit Unit Unit Unit,
      PG.learn trivSem () ⟨[], ()⟩ 2 2 1 1 "test" false 0 none = some res ∧
      res.epSums.length = 2 ∧ res.rewardBuffer.length = 2 ∧
      (0 < 2 → res.rewardBuffer.getD 0 0 = res.epSums.getD 0 0) ∧
      (∀ i, i + 1 < 2 →
        res.rewardBuffer.getD (i + 1) 0 =
          0.99 * res.rewardBuffer.getD i 0 + 0.01 * res.epSums.getD (i + 1) 0))) :=
  ⟨⟨by decide, by decide⟩,
    pg_learn_running_reward trivSem () ⟨[], ()⟩ 2 2 1 1 false 0 none (by decide)
      (by decide)⟩

/-- Claim C7: for every mode argument other than `'train'` and `'test'`,
`PG.learn` only prints a message and returns: the `PG` state (transition
buffer and model weights) is unchanged, no reward is recorded, and the
trace contains no environment reset or step, no transition store, no
gradient update and no checkpoint I/O — at most the RNG-seeding calls
that precede the mode dispatch. -/
theorem pg_learn_unknown_mode (sem : PGSem E O A Θ) (env0 : E) (pg : PGState O A Θ)
    (N T ms si : ℕ) (mode : String) (render : Bool) (gamma : ℝ) (seed : Option ℤ)
    (h1 : mode ≠ "train") (h2 : mode ≠ "test") :
    ∃ res : LearnResult E O A Θ,
      PG.learn sem env0 pg N T ms si mode render gamma seed = some res ∧
      res.pg = pg ∧ res.epSums = [] ∧ res.rewardBuffer = [] ∧
      res.trace = seedEvents seed ∧
      (∀ e ∈ res.trace, e = Ev.seedNp ∨ e = Ev.seedTf ∨ e = Ev.seedEnv) := by
  refine ⟨⟨appliedSeed sem env0 seed, pg, [], [], seedEvents seed⟩,
    PG.learn_other_eq sem env0 pg N T ms si mode render gamma seed h1 h2,
    rfl, rfl, rfl, rfl, ?_⟩
  intro e he
  rcases seedEvents_cases seed with ⟨-, hse⟩ | ⟨-, hse⟩
  · rw [hse] at he
    simp at he
  · rw [hse] at he
    simpa using he

/-- Witness for C7 at the concrete mode string `'eval'` with a truthy
seed over trivial types. -/
theorem pg_learn_unknown_mode_witness :
    (("eval" : String) ≠ "train" ∧ ("eval" : String) ≠ "test") ∧
    (∃ res : LearnResult Unit Unit Unit Unit,
      PG.learn trivSem () ⟨[], ()⟩ 3 3 5 5 "eval" true 0 (some 2) = some res ∧
      res.pg = ⟨[], ()⟩ ∧ res.epSums = [] ∧ res.rewardBuffer = [] ∧
      res.trace = seedEvents (some 2) ∧
      (∀ e ∈ res.trace, e = Ev.seedNp ∨ e = Ev.seedTf ∨ e = Ev.seedEnv)) :=
  ⟨⟨by decide, by decide⟩,
    pg_learn_unknown_mode trivSem () ⟨[], ()⟩ 3 3 5 5 "eval" true 0 (some 2)
      (by decide) (by decide)⟩

end LearnTheorems

section SeedTheorem

variable {E O A Θ : Type}

/-- Claim C10: `PG.learn` seeds the NumPy, TensorFlow and environment
random-number generators if and only if the `seed` argument is truthy in
the Python sense; in particular for the valid seed value `0` (and for the
default `None`) the guard is falsy and no seeding is performed, so
`seed = 0` does not make a run reproducible. -/
theorem pg_learn_seed_guard (sem : PGSem E O A Θ) (env0 : E) (pg : PGState O A Θ)
    (N T ms si : ℕ) (mode : String) (render : Bool) (gamma : ℝ) (seed : Option ℤ)
    (res : LearnResult E O A Θ)
    (h : PG.learn sem env0 pg N T ms si mode render gamma seed = some res) :
    ((Ev.seedNp ∈ res.trace ∨ Ev.seedTf ∈ res.trace ∨ Ev.seedEnv ∈ res.trace) ↔
      seedTruthy seed = true) ∧
    seedTruthy (some 0) = false ∧ seedTruthy none = false := by
  obtain ⟨body, htr, hbody⟩ :=
    PG.learn_trace_split sem env0 pg N T ms si mode render gamma seed res h
  refine ⟨⟨?_, ?_⟩, rfl, rfl⟩
  · intro hmem
    rcases seedEvents_cases seed with ⟨hsb, hse⟩ | ⟨hsb, -⟩
    · exfalso
      rw [htr, hse, List.nil_append] at hmem
      rcases hmem with hm | hm | hm
      · exact (hbody _ hm).1 rfl
      · exact (hbody _ hm).2.1 rfl
      · exact (hbody _ hm).2.2 rfl
    · exact hsb
  · intro hsb
    rw [htr, seedEvents_of_true hsb]
    exact Or.inl (List.mem_append.mpr (Or.inl (by simp)))

/-- Witness for C10: a concrete completed run (zero train episodes over
trivial types) with the truthy seed `1`. -/
theorem pg_learn_seed_guard_witness :
    (PG.learn trivSem () ⟨[], ()⟩ 0 0 1 1 "train" false 0 (some 1) =
      some ⟨(), ⟨[], ()⟩, [], [],
        [Ev.seedNp, Ev.seedTf, Ev.seedEnv, Ev.plotLog]⟩) ∧
    (((Ev.seedNp ∈ [Ev.seedNp, Ev.seedTf, Ev.seedEnv, Ev.plotLog] ∨
        Ev.seedTf ∈ [Ev.seedNp, Ev.seedTf, Ev.seedEnv, Ev.plotLog] ∨
        Ev.seedEnv ∈ [Ev.seedNp, Ev.seedTf, Ev.seedEnv, Ev.plotLog]) ↔
      seedTruthy (some 1) = true) ∧
    seedTruthy (some 0) = false ∧ seedTruthy none = false) :=
  ⟨rfl,
    pg_learn_seed_guard trivSem () ⟨[], ()⟩ 0 0 1 1 "train" false 0 (some 1)
      ⟨(), ⟨[], ()⟩, [], [], [Ev.seedNp, Ev.seedTf, Ev.seedEnv, Ev.plotLog]⟩ rfl⟩

end SeedTheorem

section SurfaceTheorem

variable {E O A Θ : Type}

/-- Environment interface calls of `PG.learn` (`env.reset`, `env.render`,
`env.seed`, `env.step`). -/
def EnvCallEv (e : Ev) : Prop :=
  e = Ev.reset ∨ e = Ev.render ∨ e = Ev.seedEnv ∨ ∃ d, e = Ev.step d

/-- Framework-provided checkpoint file I/O of `PG.learn` (`save_model`
in `PG.save`, `load_model` in `PG.load_ckpt`). -/
def CheckpointEv (e : Ev) : Prop := e = Ev.save ∨ e = Ev.load

/-- In-process operations of `PG.learn` with no external file effect:
policy forward passes, the in-memory buffer append, the gradient update,
the NumPy / TensorFlow RNG seeding, and the logging call. -/
def InternalEv (e : Ev) : Prop :=
  e = Ev.choose ∨ e = Ev.chooseGreedy ∨ e = Ev.store ∨ e = Ev.update ∨
    e = Ev.seedNp ∨ e = Ev.seedTf ∨ e = Ev.plotLog

lemma saveCount_eq_filter (si : ℕ) :
    ∀ (n i : ℕ), saveCount si i n =
      ((List.range n).filter (fun j => (i + j) % si = 0)).length := by
  intro n
  induction n with
  | zero => intro i; rfl
  | succ n ih =>
    intro i
    rw [saveCount_succ, List.range_succ_eq_map, List.filter_cons]
    have hmap : ((List.range n).map Nat.succ).filter (fun j => (i + j) % si = 0) =
        ((List.range n).filter (fun j => (i + (j + 1)) % si = 0)).map Nat.succ := by
      rw [List.filter_map]
      rfl
    have hcongr : (List.range n).filter (fun j => (i + (j + 1)) % si = 0) =
        (List.range n).filter (fun j => ((i + 1) + j) % si = 0) := by
      apply List.filter_congr
      intro x hx
      have : i + (x + 1) = (i + 1) + x := by omega
      rw [this]
    simp only [Nat.add_zero]
    by_cases hc : i % si = 0
    · rw [if_pos (decide_eq_true hc), if_pos hc, List.length_cons, hmap, hcongr,
        List.length_map, ih (i + 1)]
      omega
    · rw [if_neg hc, if_neg (show ¬decide (i % si = 0) = true by simpa using hc),
        hmap, hcongr, List.length_map, ih (i + 1)]
      omega

lemma seedEvents_count_save (seed : Option ℤ) :
    (seedEvents seed).count Ev.save = 0 := by
  rcases seedEvents_cases seed with ⟨-, hse⟩ | ⟨-, hse⟩ <;> rw [hse] <;> simp

lemma seedEvents_count_load (seed : Option ℤ) :
    (seedEvents seed).count Ev.load = 0 := by
  rcases seedEvents_cases seed with ⟨-, hse⟩ | ⟨-, hse⟩ <;> rw [hse] <;> simp

/-- Claim C8: the only externally visible effects of `PG.learn` are
environment interface calls (reset, step, render, seed) and
framework-provided checkpoint file I/O: every trace event of any
completed run is an environment call, a checkpoint save/load, or an
internal in-process operation that writes no file; in train mode no
checkpoint is loaded and a checkpoint is saved exactly once per episode
index divisible by `save_interval`; in test mode the checkpoint is loaded
exactly once and never saved. -/
theorem pg_learn_external_surface (sem : PGSem E O A Θ) (env0 : E)
    (pg : PGState O A Θ) (N T ms si : ℕ) (render : Bool) (gamma : ℝ)
    (seed : Option ℤ) (hms : 0 < ms) (hsi : 0 < si) :
    (∀ (mode : String) (res : LearnResult E O A Θ),
        PG.learn sem env0 pg N T ms si mode render gamma seed = some res →
        ∀ e ∈ res.trace, EnvCallEv e ∨ CheckpointEv e ∨ InternalEv e) ∧
    (∃ res : LearnResult E O A Θ,
        PG.learn sem env0 pg N T ms si "train" render gamma seed = some res ∧
        Ev.load ∉ res.trace ∧
        res.trace.count Ev.save =
          ((List.range N).filter (fun j => (1 + j) % si = 0)).length) ∧
    (∃ res : LearnResult E O A Θ,
        PG.learn sem env0 pg N T ms si "test" render gamma seed = some res ∧
        Ev.save ∉ res.trace ∧ res.trace.count Ev.load = 1) := by
  refine ⟨?_, ?_, ?_⟩
  · intro mode res hres e he
    clear hres he
    cases e <;> simp [EnvCallEv, CheckpointEv, InternalEv]
  · obtain ⟨es2, pg2, sums, buf, tr, blocks, hrun, -, -, -, -, -, hcount⟩ :=
      runEpisodes_spec sem render ms si gamma hms N 1 (appliedSeed sem env0 seed) pg
        none
    refine ⟨⟨es2, pg2, sums, buf, seedEvents seed ++ tr ++ [Ev.plotLog]⟩,
      PG.learn_train_eq sem env0 pg N T ms si render gamma seed hrun, ?_, ?_⟩
    · show Ev.load ∉ seedEvents seed ++ tr ++ [Ev.plotLog]
      intro hmem
      rcases List.mem_append.mp hmem with hm | hm
      · rcases List.mem_append.mp hm with hm2 | hm2
        · have := seedEvents_count_load seed
          rw [List.count_eq_zero] at this
          exact this hm2
        · exact (TrainBodyEv_not_seed
            (runEpisodes_trace_mem sem render ms si gamma N 1 _ pg none es2 pg2 sums
              buf tr hrun _ hm2)).2.2.2.1 rfl
      · simp at hm
    · show (seedEvents seed ++ tr ++ [Ev.plotLog]).count Ev.save = _
      rw [List.count_append, List.count_append, seedEvents_count_save, hcount,
        saveCount_eq_filter si N 1]
      simp
  · obtain ⟨-, -, hmem⟩ := runEpisodesTest_spec sem render ms T
      (appliedSeed sem env0 seed) (sem.loadCkpt pg.θ) none
    refine ⟨_, PG.learn_test_eq sem env0 pg N T ms si render gamma seed, ?_, ?_⟩
    · show Ev.save ∉ seedEvents seed ++ (Ev.load :: (runEpisodesTest sem render ms T
        (appliedSeed sem env0 seed) (sem.loadCkpt pg.θ) none).2.2.2)
      intro hm
      rcases List.mem_append.mp hm with hm2 | hm2
      · have := seedEvents_count_save seed
        rw [List.count_eq_zero] at this
        exact this hm2
      · rcases List.mem_cons.mp hm2 with hm3 | hm3
        · exact Ev.noConfusion hm3
        · exact (TestBodyEv_not_seed (hmem _ hm3)).2.2.2.2 rfl
    · show (seedEvents seed ++ (Ev.load :: (runEpisodesTest sem render ms T
        (appliedSeed sem env0 seed) (sem.loadCkpt pg.θ) none).2.2.2)).count Ev.load = 1
      rw [List.count_append, seedEvents_count_load, List.count_cons]
      have hz : (runEpisodesTest sem render ms T (appliedSeed sem env0 seed)
          (sem.loadCkpt pg.θ) none).2.2.2.count Ev.load = 0 := by
        rw [List.count_eq_zero]
        intro hm
        exact (TestBodyEv_not_seed (hmem _ hm)).2.2.2.1 rfl
      rw [hz]
      simp

/-- Witness for C8 at a concrete instantiation with two episodes, fuel
one and save interval two over trivial types. -/
theorem pg_learn_external_surface_witness :
    ((0 : ℕ) < 1 ∧ (0 : ℕ) < 2) ∧
    ((∀ (mode : String) (res : LearnResult Unit Unit Unit Unit),
        PG.learn trivSem () ⟨[], ()⟩ 2 1 1 2 mode false 0 none = some res →
        ∀ e ∈ res.trace, EnvCallEv e ∨ CheckpointEv e ∨ InternalEv e) ∧
    (∃ res : LearnResult Unit Unit Unit Unit,
        PG.learn trivSem () ⟨[], ()⟩ 2 1 1 2 "train" false 0 none = some res ∧
        Ev.load ∉ res.trace ∧
        res.trace.count Ev.save =
          ((List.range 2).filter (fun j => (1 + j) % 2 = 0)).length) ∧
    (∃ res : LearnResult Unit Unit Unit Unit,
        PG.learn trivSem () ⟨[], ()⟩ 2 1 1 2 "test" false 0 none = some res ∧
        Ev.save ∉ res.trace ∧ res.trace.count Ev.load = 1)) :=
  ⟨⟨by decide, by decide⟩,
    pg_learn_external_surface trivSem () ⟨[], ()⟩ 2 1 1 2 false 0 none
      (by decide) (by decide)⟩

end SurfaceTheorem

namespace TD3

/-- The scalar entries of the `alg_params` dictionary built by the
configuration functions of `td3/default.py` (`state_dim`, `action_dim`,
`replay_buffer_capacity`, `policy_target_update_interval`,
`action_range`); the network and optimizer objects are freshly
constructed framework objects and are not part of the scalar table. -/
structure AlgScalarParams where
  state_dim : ℕ
  action_dim : ℕ
  replay_buffer_capacity : ℚ
  policy_target_update_interval : ℕ
  action_range : ℚ
  deriving DecidableEq, Repr

/-- The `learn_params` dictionary built by the configuration functions of
`td3/default.py`. -/
structure LearnParams where
  max_steps : ℕ
  batch_size : ℕ
  explore_steps : ℕ
  update_itr : ℕ
  reward_scale : ℚ
  explore_noise_scale : ℚ
  eval_noise_scale : ℚ
  train_episodes : ℕ
  test_episodes : ℕ
  save_interval : ℕ
  deriving DecidableEq, Repr

/-- `classic_control` (`td3/default.py`, lines 38-92), restricted to the
scalar parameter tables; `state_dim` and `action_dim` abbreviate
`env.observation_space.shape[0]` and `env.action_space.shape[0]`. -/
def classic_control (state_dim action_dim : ℕ) : AlgScalarParams × LearnParams :=
  (⟨state_dim, action_dim, 500000, 5, 1⟩,
    ⟨150, 64, 500, 3, 1, 1, 1/2, 1000, 10, 100⟩)

/-- `box2d` (`td3/default.py`, lines 94-148). -/
def box2d (state_dim action_dim : ℕ) : AlgScalarParams × LearnParams :=
  (⟨state_dim, action_dim, 500000, 5, 1⟩,
    ⟨150, 64, 500, 3, 1, 1, 1/2, 1000, 10, 100⟩)

/-- `mujoco` (`td3/default.py`, lines 151-205). -/
def mujoco (state_dim action_dim : ℕ) : AlgScalarParams × LearnParams :=
  (⟨state_dim, action_dim, 500000, 5, 1⟩,
    ⟨150, 64, 500, 3, 1, 1, 1/2, 1000, 10, 100⟩)

/-- `robotics` (`td3/default.py`, lines 210-264). -/
def robotics (state_dim action_dim : ℕ) : AlgScalarParams × LearnParams :=
  (⟨state_dim, action_dim, 500000, 5, 1⟩,
    ⟨150, 64, 500, 3, 1, 1, 1/2, 1000, 10, 100⟩)

/-- `dm_control` (`td3/default.py`, lines 266-320). -/
def dm_control (state_dim action_dim : ℕ) : AlgScalarParams × LearnParams :=
  (⟨state_dim, action_dim, 500000, 5, 1⟩,
    ⟨150, 64, 500, 3, 1, 1, 1/2, 1000, 10, 100⟩)

/-- `rlbench` (`td3/default.py`, lines 323-377): identical to the other
configuration functions except that `action_range` is `0.1`. -/
def rlbench (state_dim action_dim : ℕ) : AlgScalarParams × LearnParams :=
  (⟨state_dim, action_dim, 500000, 5, 1/10⟩,
    ⟨150, 64, 500, 3, 1, 1, 1/2, 1000, 10, 100⟩)

end TD3

/-- Claim C5: for every environment with 1-dimensional observation and
action shapes, the TD3 configuration functions `classic_control`,
`box2d`, `mujoco`, `robotics` and `dm_control` return pairwise equal
parameter tables — scalar `alg_params` entries `state_dim` and
`action_dim` from the environment, `replay_buffer_capacity = 5e5`,
`policy_target_update_interval = 5`, `action_range = 1.0`, and identical
`learn_params` — and `rlbench` returns the same tables except that
`action_range` is `0.1`. -/
theorem td3_default_params_equal (state_dim action_dim : ℕ) :
    TD3.classic_control state_dim action_dim = TD3.box2d state_dim action_dim ∧
    TD3.classic_control state_dim action_dim = TD3.mujoco state_dim action_dim ∧
    TD3.classic_control state_dim action_dim = TD3.robotics state_dim action_dim ∧
    TD3.classic_control state_dim action_dim = TD3.dm_control state_dim action_dim ∧
    (TD3.classic_control state_dim action_dim).1 =
      ⟨state_dim, action_dim, 500000, 5, 1⟩ ∧
    (TD3.rlbench state_dim action_dim).1 =
      { (TD3.classic_control state_dim action_dim).1 with action_range := 1/10 } ∧
    (TD3.rlbench state_dim action_dim).2 =
      (TD3.classic_control state_dim action_dim).2 :=
  ⟨rfl, rfl, rfl, rfl, rfl, rfl, rfl⟩

namespace DQN

/-- The dueling aggregation line shared by `MLPQNet.forward` and
`CNNQNet.forward` (`dqn/default.py`, lines 101 and 137), for one batch
row: `q_out = v_out + q_out - tf.reduce_mean(q_out, 1, True)`, where
`vOut` is the scalar value-head output for the row and `qRow` the
advantage-head outputs over the action axis. -/
def duelingAggregate (vOut : ℚ) (qRow : List ℚ) : List ℚ :=
  qRow.map (fun q => vOut + q - listMean qRow)

/-- The dueling branch of `MLPQNet.forward` (`dqn/default.py`,
lines 135-137) applied to a batch: row `i` of the result aggregates the
value-head output `vOut[i]` with the advantage row `qOut[i]`. -/
def MLPQNet_forward_dueling (vOut : List ℚ) (qOut : List (List ℚ)) :
    List (List ℚ) :=
  List.zipWith duelingAggregate vOut qOut

/-- The dueling branch of `CNNQNet.forward` (`dqn/default.py`,
lines 99-101) applied to a batch; the aggregation line is identical to
the one in `MLPQNet.forward`. -/
def CNNQNet_forward_dueling (vOut : List ℚ) (qOut : List (List ℚ)) :
    List (List ℚ) :=
  List.zipWith duelingAggregate vOut qOut

lemma duelingAggregate_mean (vOut : ℚ) (qRow : List ℚ) (h : qRow ≠ []) :
    listMean (duelingAggregate vOut qRow) = vOut := by
  have hn : ((qRow.length : ℚ)) ≠ 0 :=
    Nat.cast_ne_zero.mpr (List.length_pos.mpr h).ne'
  unfold duelingAggregate listMean
  rw [listSum_map_add_sub, List.length_map]
  field_simp

lemma zipWith_mean (vOut : List ℚ) :
    ∀ qOut : List (List ℚ), (∀ row ∈ qOut, row ≠ []) →
      (List.zipWith duelingAggregate vOut qOut).map listMean =
        vOut.take qOut.length := by
  induction vOut with
  | nil => intro qOut h; simp
  | cons v vs ih =>
    intro qOut h
    cases qOut with
    | nil => simp
    | cons row rows =>
      simp only [List.zipWith_cons_cons, List.map_cons, List.length_cons,
        List.take_succ_cons]
      refine congrArg₂ _ ?_ ?_
      · exact duelingAggregate_mean v row (h row (by simp))
      · exact ih rows (fun r hr => h r (by simp [hr]))

end DQN

/-- Claim C9: the dueling aggregation
`q_out = v_out + q_out - mean(q_out, axis=1)` in `MLPQNet.forward` and
`CNNQNet.forward` yields Q-values whose mean over the action axis equals
the value head's output `v_out` for that input: on every single row the
mean of the aggregate is `v_out`, and on every batch (with a non-empty
action axis) the row means of both networks' aggregates are exactly the
value-head outputs. -/
theorem dqn_dueling_mean (vOut : ℚ) (qRow : List ℚ) (vBatch : List ℚ)
    (qBatch : List (List ℚ)) (hrow : qRow ≠ []) (hbatch : ∀ row ∈ qBatch, row ≠ []) :
    listMean (DQN.duelingAggregate vOut qRow) = vOut ∧
    (DQN.MLPQNet_forward_dueling vBatch qBatch).map listMean =
      vBatch.take qBatch.length ∧
    (DQN.CNNQNet_forward_dueling vBatch qBatch).map listMean =
      vBatch.take qBatch.length :=
  ⟨DQN.duelingAggregate_mean vOut qRow hrow,
    DQN.zipWith_mean vBatch qBatch hbatch,
    DQN.zipWith_mean vBatch qBatch hbatch⟩

/-- Witness for C9 at the concrete row `v = 2`, `q = [1, 3]` and the
batch `vBatch = [2, 5]`, `qBatch = [[1, 3], [7, 7]]`. -/
theorem dqn_dueling_mean_witness :
    (([(1 : ℚ), 3] : List ℚ) ≠ [] ∧
      (∀ row ∈ ([[(1 : ℚ), 3], [7, 7]] : List (List ℚ)), row ≠ [])) ∧
    (listMean (DQN.duelingAggregate 2 [1, 3]) = 2 ∧
      (DQN.MLPQNet_forward_dueling [2, 5] [[1, 3], [7, 7]]).map listMean =
        ([(2 : ℚ), 5] : List ℚ).take 2 ∧
      (DQN.CNNQNet_forward_dueling [2, 5] [[1, 3], [7, 7]]).map listMean =
        ([(2 : ℚ), 5] : List ℚ).take 2) :=
  ⟨⟨List.cons_ne_nil _ _, by decide⟩,
    dqn_dueling_mean 2 [1, 3] [2, 5] [[1, 3], [7, 7]] (List.cons_ne_nil _ _)
      (by decide)⟩
